import Mathlib

/-!
# Verification of the Nelson peer-list / IRI-client core

Shallow embedding of `src/node/peer-list.js` and the IRI client
(`src/node/iri.js`) of the Nelson daemon, together with the parts of its
JavaScript environment that the embedded functions depend on:

* the `ip` npm package predicates `isV4Format`, `isV6Format`, `isPrivate`
  (regular-expression tests, embedded as explicit decompositions of the
  regexes used by that package);
* `String.prototype.replace` with a plain-string pattern (first occurrence
  only), `parseInt`, JavaScript number equality around `NaN`, and the
  `weighted` npm package's cumulative-weight selection.

JavaScript numbers are modelled as `ℚ` (no claim here depends on binary
floating point), `NaN`-able integer fields as `Option Int` (`none` = `NaN`),
and `Date` values as millisecond timestamps in `ℚ`.  Randomness is passed
explicitly: each call to the `weighted` sampler consumes one draw `r` with
`0 ≤ r < 1` from a caller-supplied list, mirroring `Math.random()`.
-/

namespace Nelson

/-! ## Character classes used by the `ip` package regexes -/

def isDigitCh (c : Char) : Bool := '0' ≤ c && c ≤ '9'

/-- Hex digit as matched by `[0-9a-f]` under the `/i` flag. -/
def isHexCh (c : Char) : Bool :=
  isDigitCh c || ('a' ≤ c && c ≤ 'f') || ('A' ≤ c && c ≤ 'F')

/-- Length of the longest run of characters satisfying `p` at the head. -/
def runLen (p : Char → Bool) : List Char → Nat
  | [] => 0
  | c :: cs => if p c then runLen p cs + 1 else 0

/-- All suffixes obtained by consuming between `lo` and `hi` leading
characters satisfying `p` (the decompositions of `p{lo,hi}`). -/
def runSuffixes (p : Char → Bool) (lo hi : Nat) (t : List Char) : List (List Char) :=
  (List.range (min (runLen p t) hi + 1)).filterMap
    (fun k => if lo ≤ k then some (t.drop k) else none)

/-- Consume a literal `'.'`. -/
def dotSuff : List Char → Option (List Char)
  | '.' :: r => some r
  | _ => none

/-- Decompositions of `\d{1,3}`. -/
def digitRunSuffixes (t : List Char) : List (List Char) :=
  runSuffixes isDigitCh 1 3 t

/-- Decompositions of `(\d{1,3}\.){3}\d{1,3}` (a dotted quad) as a prefix:
all suffixes left after consuming one. -/
def quadSuffixes (t : List Char) : List (List Char) :=
  let s1 := digitRunSuffixes t
  let s2 := (s1.filterMap dotSuff).flatMap digitRunSuffixes
  let s3 := (s2.filterMap dotSuff).flatMap digitRunSuffixes
  (s3.filterMap dotSuff).flatMap digitRunSuffixes

/-- `ip.isV4Format`: the test `/^(\d{1,3}\.){3,3}\d{1,3}$/`. -/
def isV4Format (s : String) : Bool :=
  (quadSuffixes s.toList).contains ([] : List Char)

/-- Deduplicate a list of suffixes (set semantics for reachable states). -/
def dedupSuff (ls : List (List Char)) : List (List Char) :=
  ls.foldl (fun acc x => if acc.contains x then acc else acc ++ [x]) []

/-- One group of the `ip` package IPv6 regex:
`(((\d{1,3}\.){3}(\d{1,3}){1})?([0-9a-f]){0,4}:{0,2})` under `/i`.
Returns every suffix reachable by consuming one group. -/
def v6GroupSuffixes (t : List Char) : List (List Char) :=
  let afterQuad := t :: quadSuffixes t
  let afterHex := afterQuad.flatMap (runSuffixes isHexCh 0 4)
  dedupSuff (afterHex.flatMap (runSuffixes (· == ':') 0 2))

/-- Does the rest of the string complete the regex, i.e. match `(::)?$`? -/
def v6End (t : List Char) : Bool := t == [] || t == [':', ':']

/-- Accept if some suffix reachable by `1` to `k` further groups ends the
regex. -/
def v6Iter : Nat → List (List Char) → Bool
  | 0, _ => false
  | k + 1, ts =>
    let ns := dedupSuff (ts.flatMap v6GroupSuffixes)
    ns.any v6End || v6Iter k ns

/-- `ip.isV6Format`: the test
`/^(::)?(((\d{1,3}\.){3}(\d{1,3}){1})?([0-9a-f]){0,4}:{0,2}){1,8}(::)?$/i`,
expressed as: after the optional leading `::`, some `1..8` group
decomposition reaches a suffix matching `(::)?$`. -/
def isV6Format (s : String) : Bool :=
  let cs := s.toList
  let starts := match cs with
    | ':' :: ':' :: r => [cs, r]
    | _ => [cs]
  v6Iter 8 (dedupSuff starts)

/-- The optional `(::f{4}:)?` head (case-insensitive) of the private-range
v4 patterns: both decompositions. -/
def afterMappedHead (cs : List Char) : List (List Char) :=
  cs :: (match cs with
    | ':' :: ':' :: a :: b :: c :: d :: ':' :: r =>
      if [a, b, c, d].all (fun x => x.toLower == 'f') then [r] else []
    | _ => [])

/-- Consume a literal string (case-sensitive). -/
def litSuff (pat : List Char) (t : List Char) : Option (List Char) :=
  if pat.isPrefixOf t then some (t.drop pat.length) else none

/-- `(\d{1,3})\.(\d{1,3})$` -/
def tailTwoRuns (t : List Char) : Bool :=
  (((digitRunSuffixes t).filterMap dotSuff).flatMap digitRunSuffixes).contains []

/-- `(\d{1,3})\.(\d{1,3})\.(\d{1,3})$` -/
def tailThreeRuns (t : List Char) : Bool :=
  (((((digitRunSuffixes t).filterMap dotSuff).flatMap digitRunSuffixes).filterMap
    dotSuff).flatMap digitRunSuffixes).contains []

/-- The `172.` middle octet alternatives `(1[6-9]|2\d|30|31)`. -/
def oct172 : List Char → Option (List Char)
  | a :: b :: r =>
    if (a == '1' && '6' ≤ b && b ≤ '9') ||
       (a == '2' && isDigitCh b) ||
       (a == '3' && (b == '0' || b == '1')) then some r else none
  | _ => none

/-- `ip.isPrivate`: the disjunction of the nine private-range regex tests of
the `ip` npm package (v4 ranges allow an optional case-insensitive
`::f{4}:` head; `f[cd]../fe80:` are bare prefix tests; `::1` and `::` are
exact). -/
def isPrivate (s : String) : Bool :=
  let cs := s.toList
  let headOpts := afterMappedHead cs
  (headOpts.any fun t => match litSuff "10.".toList t with
    | some r => tailThreeRuns r
    | none => false) ||
  (headOpts.any fun t => match litSuff "192.168.".toList t with
    | some r => tailTwoRuns r
    | none => false) ||
  (headOpts.any fun t => match litSuff "172.".toList t with
    | some r => (match oct172 r with
        | some r2 => (match dotSuff r2 with
            | some r3 => tailTwoRuns r3
            | none => false)
        | none => false)
    | none => false) ||
  (headOpts.any fun t => match litSuff "127.".toList t with
    | some r => tailThreeRuns r
    | none => false) ||
  (headOpts.any fun t => match litSuff "169.254.".toList t with
    | some r => tailTwoRuns r
    | none => false) ||
  (match cs with
    | a :: b :: c :: d :: e :: _ =>
      a.toLower == 'f' && (b.toLower == 'c' || b.toLower == 'd') &&
      isHexCh c && isHexCh d && e == ':'
    | _ => false) ||
  (match cs with
    | a :: b :: c :: d :: e :: _ =>
      a.toLower == 'f' && b.toLower == 'e' && c == '8' && d == '0' && e == ':'
    | _ => false) ||
  cs == [':', ':', '1'] ||
  cs == [':', ':']

/-! ## JavaScript string/number primitives -/

/-- `String.prototype.replace` with a plain-string pattern: removes the
first occurrence of `pat` (replacement is the empty string); the string is
returned unchanged when `pat` does not occur. -/
def replaceFirstL (pat : List Char) : List Char → List Char
  | [] => []
  | c :: rest =>
    if pat.isPrefixOf (c :: rest) then (c :: rest).drop pat.length
    else c :: replaceFirstL pat rest

def replaceFirst (s pat : String) : String := ⟨replaceFirstL pat.toList s.toList⟩

/-- `PeerList.cleanAddress` (src/node/peer-list.js:295-300). -/
def cleanAddress (address : String) : String :=
  if !isV4Format address && !isV6Format address then address
  else if isPrivate address then "localhost"
  else replaceFirst address "::ffff:"

/-- `parseInt(s)` (no radix argument): skip leading whitespace, optional
sign, then either a `0x`/`0X` hexadecimal or a decimal digit run; `none`
models `NaN` (no digits at all). Trailing garbage is ignored. -/
def jsParseInt (s : String) : Option Int :=
  let cs := s.toList.dropWhile (fun c =>
    c == ' ' || c == '\t' || c == '\n' || c == '\r')
  let (sign, rest) : Int × List Char := match cs with
    | '-' :: r => (-1, r)
    | '+' :: r => (1, r)
    | r => (1, r)
  let digitsOf := fun (p : Char → Bool) (base : Nat) (val : Char → Nat)
      (t : List Char) =>
    let ds := t.takeWhile p
    if ds.isEmpty then (none : Option Int)
    else some (sign * Int.ofNat (ds.foldl (fun a c => a * base + val c) 0))
  match rest with
  | '0' :: 'x' :: t => digitsOf isHexCh 16 hexVal t
  | '0' :: 'X' :: t => digitsOf isHexCh 16 hexVal t
  | t => digitsOf isDigitCh 10 (fun c => c.toNat - 48) t
where
  hexVal (c : Char) : Nat :=
    if isDigitCh c then c.toNat - 48
    else if 'a' ≤ c && c ≤ 'f' then c.toNat - 87
    else c.toNat - 55

/-- JavaScript strict inequality `a !== b` between two numbers, where
`none` stands for `NaN` (`NaN !== x` is always true). -/
def jsNumNe (a b : Option Int) : Bool :=
  match a, b with
  | some x, some y => x != y
  | _, _ => true

/-- JavaScript loose equality `a == b` between two numbers with `NaN` as
`none` (`NaN == x` is always false). -/
def jsNumEq (a b : Option Int) : Bool :=
  match a, b with
  | some x, some y => x == y
  | _, _ => false

/-- Number truthiness: `0` and `NaN` are falsy. -/
def jsTruthyNum : Option Int → Bool
  | none => false
  | some v => v != 0

/-- `v || d` on numbers: falsy (`0`/`NaN`) falls back to the default. -/
def jsNumOrDefault (o : Option Int) (d : Int) : Option Int :=
  if jsTruthyNum o then o else some d

/-- `s || d` for a string argument (the empty string models an omitted or
empty argument, both falsy). -/
def jsOrDefaultS (s d : String) : String := if s == "" then d else s

/-- `Math.max(a, b)`. -/
def jsMax (a b : ℚ) : ℚ := if a < b then b else a

/-- `Math.min(a, b)`. -/
def jsMin (a b : ℚ) : ℚ := if a < b then a else b

/-- `Math.max(...l)` for a nonempty list (the empty case, `-Infinity`, is
unreachable behind the emptiness guard in `getWeighted`). -/
def maxListQ : List ℚ → ℚ
  | [] => 0
  | h :: t => t.foldl jsMax h

/-! ## Data model

The `Peer` entity itself lives in `src/node/peer.js`, which is not part of
the sources here; per the specification (§3, §4.1) it is a thin value
holder whose `isTrusted()` returns the stored bit and whose `update` merges
fields and writes back through the list.  `PeerData` below is modelled from
the spec accordingly: the persistent record of §3, mutated only through the
`PeerList` operations.  JavaScript object identity is structural equality
here; the list-level theorems assume `Nodup` states, on which the two
coincide. -/

structure PeerData where
  hostname : String
  ipAddr : Option String
  port : Option Int
  TCPPort : Option Int
  UDPPort : Option Int
  isTrusted : Bool
  weight : ℚ
  dateCreated : ℚ
  dateLastConnected : Option ℚ
  connected : Nat
  tried : Nat
deriving DecidableEq

/-- The `PeerList` options that the embedded operations read. -/
structure PeerListOpts where
  isMaster : Bool
  multiPort : Bool
deriving DecidableEq

/-- `DEFAULT_OPTIONS.TCPPort` of the IRI client. -/
def IRI_DEFAULT_TCP : Int := 15600

/-- `DEFAULT_OPTIONS.UDPPort` of the IRI client. -/
def IRI_DEFAULT_UDP : Int := 14600

def CONNECTION_WEIGHT_MULTIPLIER : ℚ := 1

def MAX_WEIGHT : ℚ := 4000000

/-! ## PeerList operations (src/node/peer-list.js) -/

/-- `PeerList.findByAddress` (lines 141-163).  DNS resolution
(`dns.resolve(addr, 'A', ...)`) is an external collaborator and is passed
as the oracle `dns` returning the first `A` record, or `none` on
error/empty result. -/
def findByAddress (opts : PeerListOpts) (dns : String → Option String)
    (peers : List PeerData) (address : String) (port : Option Int) :
    List PeerData :=
  let addr := cleanAddress address
  let resolved : Option String :=
    if isV6Format addr || isV4Format addr || opts.multiPort then some addr
    else dns addr
  let matching := peers.filter (fun p =>
    p.hostname == addr || p.hostname == address ||
    (match resolved with
      | some i => p.hostname == i || p.ipAddr == some i
      | none => false))
  if opts.multiPort then matching.filter (fun p => jsNumEq p.port port)
  else matching

/-- `PeerList.update` (lines 90-99) as it acts on the in-memory list:
the target peer's record is shallow-merged with the new data (the store
write has no further observable effect on the list). -/
def update (peers : List PeerData) (target : PeerData)
    (merge : PeerData → PeerData) : List PeerData :=
  peers.map (fun q => if q = target then merge q else q)

/-- `PeerList.markConnected` (lines 101-108). -/
def markConnected (now : ℚ) (peers : List PeerData) (target : PeerData)
    (increaseWeight : Bool) : List PeerData :=
  update peers target (fun q =>
    { q with
      tried := 0
      connected := q.connected + 1
      weight := jsMin (q.weight *
        (if increaseWeight then CONNECTION_WEIGHT_MULTIPLIER else 1)) MAX_WEIGHT
      dateLastConnected := some now })

/-- The `new Peer({...})` record built in the no-match branch of
`PeerList.add` (lines 262-275): cleaned hostname, literal addresses kept as
`ip`, parsed ports with the IRI defaults for falsy TCP/UDP ports, and fresh
history fields. -/
def freshPeer (now : ℚ) (hostname portS tcpS udpS : String)
    (isTrusted : Bool) (weight : ℚ) : PeerData :=
  let addr := cleanAddress hostname
  { hostname := addr
    ipAddr := if isV4Format addr || isV6Format addr then some addr else none
    port := jsParseInt portS
    TCPPort := jsNumOrDefault
      (jsParseInt (jsOrDefaultS tcpS (toString IRI_DEFAULT_TCP))) IRI_DEFAULT_TCP
    UDPPort := jsNumOrDefault
      (jsParseInt (jsOrDefaultS udpS (toString IRI_DEFAULT_UDP))) IRI_DEFAULT_UDP
    isTrusted := isTrusted
    weight := weight
    dateCreated := now
    dateLastConnected := none
    connected := 0
    tried := 0 }

/-- `PeerList.add` (lines 240-288).  Port arguments arrive as strings
(`""` models an omitted/empty token, which is falsy).  Returns the new
in-memory list and the peer the resolved promise would carry. -/
def add (opts : PeerListOpts) (dns : String → Option String) (now : ℚ)
    (peers : List PeerData) (hostname portS tcpS udpS : String)
    (isTrusted : Bool) (weight : ℚ) : List PeerData × Option PeerData :=
  let port := jsParseInt portS
  let TCPPort := jsParseInt (jsOrDefaultS tcpS (toString IRI_DEFAULT_TCP))
  let UDPPort := jsParseInt (jsOrDefaultS udpS (toString IRI_DEFAULT_UDP))
  let found := findByAddress opts dns peers hostname port
  match found.head? with
  | some existing =>
    if !opts.multiPort &&
        (jsNumNe port existing.port ||
         (jsTruthyNum TCPPort && jsNumNe TCPPort existing.TCPPort) ||
         (jsTruthyNum UDPPort && jsNumNe UDPPort existing.UDPPort)) then
      let merge := fun (q : PeerData) =>
        { q with port := port, TCPPort := TCPPort, UDPPort := UDPPort }
      (update peers existing merge, some (merge existing))
    else if existing.weight < weight then
      (update peers existing (fun q => { q with weight := weight }),
       some { existing with weight := weight })
    else (peers, some existing)
  | none =>
    let newPeer := freshPeer now hostname portS tcpS udpS isTrusted weight
    (peers ++ [newPeer], some newPeer)

/-! ## Weighted sampling (src/node/peer-list.js lines 186-227) -/

/-- Modelled from the spec: `getSecondsPassed` from `tools/utils` (not
among the sources), "seconds since" a date — elapsed milliseconds divided
by 1000. -/
def getSecondsPassed (now date : ℚ) : ℚ := (now - date) / 1000

/-- `PeerList.getPeerWeight` (lines 186-193). -/
def getPeerWeight (isMaster : Bool) (now : ℚ) (p : PeerData) : ℚ :=
  if isMaster then
    jsMax ((p.dateLastConnected.getD p.dateCreated - p.dateCreated) / 1000) 1
  else
    jsMax (getSecondsPassed now p.dateCreated * p.weight) 1

/-- The `weighted` npm package's selection loop: subtract weights from
`r * total` until the running value goes negative and return that item;
`none` when the loop falls through (unreachable for `0 ≤ r < 1` with
positive weights). -/
def weightedPickGo : List PeerData → List ℚ → ℚ → Option PeerData
  | [], _, _ => none
  | _ :: _, [], _ => none
  | p :: ps, w :: ws, k => if k < w then some p else weightedPickGo ps ws (k - w)

def weightedPick (ps : List PeerData) (ws : List ℚ) (r : ℚ) : Option PeerData :=
  weightedPickGo ps ws (r * ws.sum)

/-- JavaScript `indexOf` by strict equality, `none` modelling `-1`. -/
def indexOfP : List PeerData → PeerData → Option Nat
  | [], _ => none
  | q :: qs, p => if q = p then some 0 else (indexOfP qs p).map (· + 1)

/-- `arr.splice(i, 1)` with JavaScript index semantics: `some i` removes
the `i`-th entry, `none` (an `indexOf` miss, `-1`) removes the last one.
Returns `(removed, remaining)`. -/
def spliceOne (l : List ℚ) : Option Nat → List ℚ × List ℚ
  | none => (l.drop (l.length - 1), l.take (l.length - 1))
  | some i => ((l.drop i).take 1, l.take i ++ l.drop (i + 1))

/-- One `getChoice()` body (lines 212-217): sample a peer, splice it out of
`peers`, then splice `allWeights` at `peers.indexOf(peer)` — computed
*after* the removal, hence `-1` whenever the list held a single occurrence.
When the sampler returns `undefined` (out-of-range draw) the two
`splice(-1, 1)` calls still drop the last entries and the pushed pair is
discarded by the final `filter(c => c && c[0])`, modelled by `none`. -/
def getChoice (isMaster : Bool) (now weightsMax r : ℚ)
    (peers : List PeerData) (allWeights : List ℚ) :
    List PeerData × List ℚ × Option (PeerData × ℚ) :=
  match weightedPick peers (peers.map (getPeerWeight isMaster now)) r with
  | none =>
    (peers.take (peers.length - 1), allWeights.take (allWeights.length - 1), none)
  | some peer =>
    let peersAfter := peers.erase peer
    let idx := indexOfP peersAfter peer
    let spliced := spliceOne allWeights idx
    (peersAfter, spliced.2, some (peer, spliced.1.headD 0 / weightsMax))

/-- The `for (let x = 0; x < amount; x++) { getChoice(); if (peers.length
< 1) break; }` loop, consuming one random draw per iteration.  Returns the
accumulated choices and the final content of the working array. -/
def gwLoop (isMaster : Bool) (now weightsMax : ℚ) :
    Nat → List ℚ → List PeerData → List ℚ → List (PeerData × ℚ) →
    List (PeerData × ℚ) × List PeerData
  | 0, _, peers, _, acc => (acc, peers)
  | amt + 1, rands, peers, allWeights, acc =>
    let step := getChoice isMaster now weightsMax (rands.headD 0) peers allWeights
    let acc2 := match step.2.2 with
      | some pr => acc ++ [pr]
      | none => acc
    if step.1.length < 1 then (acc2, step.1)
    else gwLoop isMaster now weightsMax amt rands.tail step.1 step.2.1 acc2

/-- `PeerList.getWeighted` (lines 202-227).  `listPeers` is the in-memory
`this.peers`; a `some` source is the caller's own array, used (and
spliced) in place, while `none` makes the loop work on a copy
(`Array.from`).  The second component is the final content of that working
array. -/
def getWeighted (opts : PeerListOpts) (now : ℚ) (listPeers : List PeerData)
    (amount : Nat) (source : Option (List PeerData)) (rands : List ℚ) :
    List (PeerData × ℚ) × List PeerData :=
  let amt := if amount = 0 then listPeers.length else amount
  let peers := source.getD listPeers
  if peers.length = 0 then ([], peers)
  else
    let allWeights := peers.map (getPeerWeight opts.isMaster now)
    let weightsMax := maxListQ allWeights
    let run := gwLoop opts.isMaster now weightsMax amt rands peers allWeights []
    (run.1.map (fun c => (c.1, if c.1.isTrusted then 1 else c.2)), run.2)

/-! ## IRI client (src/node/iri.js) -/

/-- A neighbor record as returned by the ledger's `getNeighbors` RPC:
`address` is `host:port` (§6), `connectionType` is `tcp` or `udp`. -/
structure IRINeighbor where
  address : String
  connectionType : String
deriving DecidableEq

/-- `n.address.split(':')[0]`: the characters before the first `':'` (the
whole string when there is none). -/
def neighborHost (address : String) : String :=
  ⟨address.toList.takeWhile (fun c => c != ':')⟩

/-- The static-neighbor cache built by `IRI.start` (lines 40-51):
`ips.concat(addresses)` where `addresses` are the host parts of the
first successful `getNeighbors` response.  `getIP` lives in `tools/utils`
(not among the sources); modelled from the spec ("resolving each to its
IP") as an oracle from hostname to IP literal. -/
def startStaticNeighbors (getIP : String → String)
    (neighbors : List IRINeighbor) : List String :=
  let addresses := neighbors.map (fun n => neighborHost n.address)
  addresses.map getIP ++ addresses

/-- The URI list `IRI.removeAllNeighbors` (lines 189-206) hands to the
`removeNeighbors` RPC: the current neighbors whose *full* `address` is not
in the static cache, each formatted `connectionType://address`. -/
def removeAllNeighborsURIs (staticNbrs : List String)
    (neighbors : List IRINeighbor) : List String :=
  let toRemove := neighbors.filter (fun n => !(staticNbrs.contains n.address))
  toRemove.map (fun n => n.connectionType ++ "://" ++ n.address)

/-! ## Spec-side definition for the address-normalization claim -/

/-- Modelled from the spec's words for comparison with `cleanAddress`:
"strip a leading `::ffff:` mapped-v4 prefix" — remove `::ffff:` only when
it sits at the very start of the string. -/
def specLeadingStrip (s : String) : String :=
  if "::ffff:".toList.isPrefixOf s.toList then ⟨s.toList.drop 7⟩ else s

/-! ## Concrete data used by counterexamples and witnesses -/

/-- A DNS oracle that resolves nothing. -/
def dnsNone : String → Option String := fun _ => none

/-- Default options: a normal (non-master), single-port list. -/
def optsNorm : PeerListOpts := ⟨false, false⟩

/-- An untrusted peer with stored weight 0, created at epoch 0. -/
def samplePeerA : PeerData :=
  ⟨"a", none, some 7, some 8, some 9, false, 0, 0, none, 0, 0⟩

/-- An untrusted peer with stored weight 2, created at epoch 0. -/
def samplePeerB : PeerData :=
  ⟨"b", none, some 7, some 8, some 9, false, 2, 0, none, 0, 0⟩

/-- A trusted peer, otherwise like `samplePeerB`. -/
def samplePeerT : PeerData :=
  ⟨"t", none, some 7, some 8, some 9, true, 2, 0, none, 0, 0⟩

/-- IP oracle for the IRI scenario: `static-X` resolves to `9.9.9.9`. -/
def sampleGetIP : String → String :=
  fun h => if h = "static-X" then "9.9.9.9" else "8.8.8.8"

/-- The ledger's neighbor list at `start()`: one static neighbor. -/
def sampleStartNbrs : List IRINeighbor := [⟨"static-X:14600", "udp"⟩]

/-- The ledger's neighbor list later: the static neighbor plus a dynamic
one. -/
def sampleLaterNbrs : List IRINeighbor :=
  [⟨"static-X:14600", "udp"⟩, ⟨"dyn-Y:14600", "udp"⟩]

/-! ## Lemmas about the weighted-sampling loop -/

theorem one_le_jsMax_one (x : ℚ) : 1 ≤ jsMax x 1 := by
  unfold jsMax
  split
  · exact le_refl 1
  · exact le_of_not_lt (by assumption)

/-- Every computed peer weight is at least 1 (`Math.max(…, 1)`). -/
theorem one_le_getPeerWeight (m : Bool) (now : ℚ) (p : PeerData) :
    1 ≤ getPeerWeight m now p := by
  unfold getPeerWeight
  split <;> exact one_le_jsMax_one _

theorem weightedPickGo_mem :
    ∀ (ps : List PeerData) (ws : List ℚ) (k : ℚ) (p : PeerData),
      weightedPickGo ps ws k = some p → p ∈ ps := by
  intro ps
  induction ps with
  | nil => intro ws k p h; simp [weightedPickGo] at h
  | cons q qs ih =>
    intro ws k p h
    match ws with
    | [] => simp [weightedPickGo] at h
    | w :: ws =>
      simp only [weightedPickGo] at h
      split at h
      · exact (Option.some_inj.mp h) ▸ List.mem_cons_self q qs
      · exact List.mem_cons_of_mem _ (ih ws (k - w) p h)

theorem weightedPickGo_isSome :
    ∀ (ws : List ℚ) (ps : List PeerData) (k : ℚ),
      ps.length = ws.length → (∀ w ∈ ws, 0 < w) → 0 ≤ k → k < ws.sum →
      ∃ p, weightedPickGo ps ws k = some p := by
  intro ws
  induction ws with
  | nil =>
    intro ps k _ _ hk0 hks
    rw [List.sum_nil] at hks
    exact absurd (lt_of_le_of_lt hk0 hks) (lt_irrefl 0)
  | cons w ws ih =>
    intro ps k hlen hpos hk0 hks
    match ps with
    | [] => simp at hlen
    | q :: qs =>
      simp only [weightedPickGo]
      split
      · exact ⟨q, rfl⟩
      · rename_i hkw
        refine ih qs (k - w) (by simpa using hlen)
          (fun x hx => hpos x (List.mem_cons_of_mem _ hx))
          (by linarith [le_of_not_lt hkw]) ?_
        rw [List.sum_cons] at hks
        linarith

/-- For a nonempty pool and a draw `0 ≤ r < 1`, the `weighted` sampler
returns some member of the pool. -/
theorem pick_some (m : Bool) (now : ℚ) (peers : List PeerData) (r : ℚ)
    (hne : peers ≠ []) (hr0 : 0 ≤ r) (hr1 : r < 1) :
    ∃ p, weightedPick peers (peers.map (getPeerWeight m now)) r = some p ∧
      p ∈ peers := by
  have hpos : ∀ w ∈ peers.map (getPeerWeight m now), 0 < w := by
    intro w hw
    obtain ⟨p, _, rfl⟩ := List.mem_map.mp hw
    exact lt_of_lt_of_le one_pos (one_le_getPeerWeight m now p)
  have hsum : 0 < (peers.map (getPeerWeight m now)).sum := by
    match peers, hne with
    | p :: ps, _ =>
      rw [List.map_cons, List.sum_cons]
      have h1 := one_le_getPeerWeight m now p
      have h2 : 0 ≤ (ps.map (getPeerWeight m now)).sum :=
        List.sum_nonneg (fun x hx =>
          le_of_lt (hpos x (List.mem_cons_of_mem _ hx)))
      linarith
  have hk0 : 0 ≤ r * (peers.map (getPeerWeight m now)).sum :=
    mul_nonneg hr0 (le_of_lt hsum)
  have hks : r * (peers.map (getPeerWeight m now)).sum <
      (peers.map (getPeerWeight m now)).sum := by
    have := mul_lt_mul_of_pos_right hr1 hsum
    simpa using this
  obtain ⟨p, hp⟩ := weightedPickGo_isSome (peers.map (getPeerWeight m now))
    peers (r * (peers.map (getPeerWeight m now)).sum)
    (List.length_map peers (getPeerWeight m now)).symm hpos hk0 hks
  exact ⟨p, hp, weightedPickGo_mem _ _ _ _ hp⟩

/-- Shape of one successful `getChoice()` step. -/
theorem getChoice_some (m : Bool) (now wm r : ℚ) (peers : List PeerData)
    (allW : List ℚ) (hne : peers ≠ []) (hr0 : 0 ≤ r) (hr1 : r < 1) :
    ∃ peer rho, peer ∈ peers ∧
      getChoice m now wm r peers allW =
        (peers.erase peer,
         (spliceOne allW (indexOfP (peers.erase peer) peer)).2,
         some (peer, rho)) := by
  obtain ⟨peer, hpk, hmem⟩ := pick_some m now peers r hne hr0 hr1
  refine ⟨peer,
    (spliceOne allW (indexOfP (peers.erase peer) peer)).1.headD 0 / wm,
    hmem, ?_⟩
  unfold getChoice
  rw [hpk]

/-- Main loop invariant: under valid draws and a duplicate-free pool, the
loop appends some `picked` list to the accumulator; the picked peers
together with the final pool content are a permutation of the initial
pool, and exactly `min amt |pool|` picks happen. -/
theorem gwLoop_spec (m : Bool) (now wm : ℚ) :
    ∀ (amt : Nat) (rands : List ℚ) (peers : List PeerData) (allW : List ℚ)
      (acc : List (PeerData × ℚ)),
      (∀ r ∈ rands, 0 ≤ r ∧ r < 1) → peers.Nodup →
      ∃ picked fin,
        gwLoop m now wm amt rands peers allW acc = (acc ++ picked, fin) ∧
        ((picked.map Prod.fst) ++ fin).Perm peers ∧
        picked.length = min amt peers.length := by
  intro amt
  induction amt with
  | zero =>
    intro rands peers allW acc _ _
    exact ⟨[], peers, by simp [gwLoop], by simp, by simp⟩
  | succ n ih =>
    intro rands peers allW acc hr hnd
    have hrhead : 0 ≤ rands.headD 0 ∧ rands.headD 0 < 1 := by
      match rands with
      | [] => exact ⟨le_refl 0, one_pos⟩
      | r :: rs => exact hr r (List.mem_cons_self r rs)
    match peers, hnd with
    | [], _ =>
      refine ⟨[], [], ?_, by simp, by simp⟩
      simp [gwLoop, getChoice, weightedPick, weightedPickGo]
    | p₀ :: ps, hnd =>
      obtain ⟨peer, rho, hmem, hgc⟩ := getChoice_some m now wm (rands.headD 0)
        (p₀ :: ps) allW (by simp) hrhead.1 hrhead.2
      have hperm : (p₀ :: ps).Perm (peer :: (p₀ :: ps).erase peer) :=
        List.perm_cons_erase hmem
      have hnd' : ((p₀ :: ps).erase peer).Nodup := hnd.erase peer
      have hlen' : ((p₀ :: ps).erase peer).length = ps.length :=
        by simpa using List.length_erase_of_mem hmem
      by_cases hsmall : ((p₀ :: ps).erase peer).length < 1
      · have hnil : (p₀ :: ps).erase peer = [] :=
          List.length_eq_zero.mp (Nat.lt_one_iff.mp hsmall)
        refine ⟨[(peer, rho)], [], ?_, ?_, ?_⟩
        · simp only [gwLoop, hgc, hnil]
          simp
        · simpa [hnil] using hperm.symm
        · have hps : ps.length = 0 := by
            have h2 := hlen'
            rw [hnil] at h2
            simpa using h2.symm
          simp only [List.length_singleton, List.length_cons, List.length_nil, hps]
          omega
      · obtain ⟨picked, fin, heq, hperm', hlen''⟩ := ih rands.tail
          ((p₀ :: ps).erase peer)
          (spliceOne allW (indexOfP ((p₀ :: ps).erase peer) peer)).2
          (acc ++ [(peer, rho)])
          (fun r hrt => hr r (List.mem_of_mem_tail hrt)) hnd'
        refine ⟨(peer, rho) :: picked, fin, ?_, ?_, ?_⟩
        · simp only [gwLoop, hgc]
          simp only [if_neg hsmall]
          rw [heq]
          simp
        · have h1 : ((peer, rho) :: picked).map Prod.fst ++ fin =
              peer :: (picked.map Prod.fst ++ fin) := by simp
          rw [h1]
          exact (hperm'.cons peer).trans hperm.symm
        · simp only [List.length_cons, hlen'', hlen']
          omega

/-- `getWeighted` in terms of the loop invariant: the result is the picked
pairs after the trusted-ratio rewrite; picked peers plus the final working
array are a permutation of the pool; the count is `min` of the effective
amount and the pool size. -/
theorem getWeighted_spec (opts : PeerListOpts) (now : ℚ)
    (listPeers : List PeerData) (amount : Nat)
    (source : Option (List PeerData)) (rands : List ℚ)
    (hr : ∀ r ∈ rands, 0 ≤ r ∧ r < 1)
    (hnd : (source.getD listPeers).Nodup) :
    ∃ (picked : List (PeerData × ℚ)) (leftover : List PeerData),
      getWeighted opts now listPeers amount source rands =
        (picked.map (fun c => (c.1, if c.1.isTrusted then 1 else c.2)), leftover) ∧
      ((picked.map Prod.fst) ++ leftover).Perm (source.getD listPeers) ∧
      picked.length =
        min (if amount = 0 then listPeers.length else amount)
          (source.getD listPeers).length := by
  by_cases hp : (source.getD listPeers).length = 0
  · refine ⟨[], source.getD listPeers, ?_, by simp, by simp [hp]⟩
    unfold getWeighted
    simp [hp]
  · obtain ⟨picked, leftover, heq, hperm, hlen⟩ := gwLoop_spec opts.isMaster now
      (maxListQ ((source.getD listPeers).map (getPeerWeight opts.isMaster now)))
      (if amount = 0 then listPeers.length else amount) rands
      (source.getD listPeers)
      ((source.getD listPeers).map (getPeerWeight opts.isMaster now)) [] hr hnd
    refine ⟨picked, leftover, ?_, hperm, hlen⟩
    unfold getWeighted
    simp only [if_neg hp]
    simp only [List.nil_append] at heq
    rw [heq]

/-! ## Lemmas about `cleanAddress` and `add` -/

theorem cleanAddress_of_not_literal (s : String) (h4 : isV4Format s = false)
    (h6 : isV6Format s = false) : cleanAddress s = s := by
  unfold cleanAddress
  rw [h4, h6]
  rfl

theorem cleanAddress_of_private (s : String)
    (hlit : isV4Format s = true ∨ isV6Format s = true)
    (hp : isPrivate s = true) : cleanAddress s = "localhost" := by
  unfold cleanAddress
  rcases hlit with h | h <;> rw [h] <;> simp [hp]

theorem cleanAddress_of_not_private (s : String)
    (hlit : isV4Format s = true ∨ isV6Format s = true)
    (hp : isPrivate s = false) :
    cleanAddress s = replaceFirst s "::ffff:" := by
  unfold cleanAddress
  rcases hlit with h | h <;> rw [h] <;> simp [hp]

theorem tcp_cond_false (t : Option Int) (d : Int) :
    (jsTruthyNum t && jsNumNe t (jsNumOrDefault t d)) = false := by
  match t with
  | none => rfl
  | some v =>
    by_cases hv : v = 0
    · simp [jsTruthyNum, hv]
    · simp [jsTruthyNum, jsNumOrDefault, jsNumNe, hv]

theorem findByAddress_nil (opts : PeerListOpts) (dns : String → Option String)
    (address : String) (port : Option Int) :
    findByAddress opts dns [] address port = [] := by
  unfold findByAddress
  simp

/-- A peer stored under the cleaned hostname is found again by the same
address (single-port mode). -/
theorem findByAddress_singleton (opts : PeerListOpts)
    (hmp : opts.multiPort = false) (dns : String → Option String)
    (p : PeerData) (address : String) (port : Option Int)
    (hh : p.hostname = cleanAddress address) :
    findByAddress opts dns [p] address port = [p] := by
  unfold findByAddress
  rw [hmp]
  simp [hh]

/-- Membership in an updated list: every element is an untouched original
or the merged target. -/
theorem mem_update (peers : List PeerData) (t : PeerData)
    (f : PeerData → PeerData) (p : PeerData) (hp : p ∈ update peers t f) :
    p ∈ peers ∨ ∃ q, q ∈ peers ∧ p = f q := by
  unfold update at hp
  obtain ⟨q, hq, hfq⟩ := List.mem_map.mp hp
  by_cases h : q = t
  · right
    exact ⟨q, hq, by rw [← hfq, if_pos h]⟩
  · left
    rw [← hfq, if_neg h]
    exact hq

/-- When `findByAddress` comes back empty, `add` appends the freshly built
peer record. -/
theorem add_no_match (opts : PeerListOpts) (dns : String → Option String)
    (now : ℚ) (peers : List PeerData)
    (hostname portS tcpS udpS : String) (tr : Bool) (w : ℚ)
    (hfind : findByAddress opts dns peers hostname (jsParseInt portS) = []) :
    (add opts dns now peers hostname portS tcpS udpS tr w).1 =
      peers ++ [freshPeer now hostname portS tcpS udpS tr w] := by
  simp only [add, hfind, List.head?_nil]

/-! ## Claim theorems -/

/-- C1: with `getNeighbors` addresses of the documented `host:port` shape,
`removeAllNeighbors` builds its static cache from host parts and IPs but
filters the removal list by the full `host:port` address, so the static
neighbor's URI appears in the `removeNeighbors` payload: the code sends
`udp://static-X:14600` although `static-X` is in the static cache,
contradicting the claim (and the function's own documentation). -/
theorem C1_removeAllNeighbors_static_in_payload :
    startStaticNeighbors sampleGetIP sampleStartNbrs = ["9.9.9.9", "static-X"] ∧
    removeAllNeighborsURIs (startStaticNeighbors sampleGetIP sampleStartNbrs)
        sampleLaterNbrs =
      ["udp://static-X:14600", "udp://dyn-Y:14600"] ∧
    "udp://static-X:14600" ∈
      removeAllNeighborsURIs (startStaticNeighbors sampleGetIP sampleStartNbrs)
        sampleLaterNbrs := by
  decide

/-- C2: in `getWeighted`, after the sampled peer is spliced out of `peers`,
`allWeights.splice(peers.indexOf(peer), 1)` runs with index `-1` and always
removes the *last* weight, so the pair carries that weight's ratio instead
of the sampled peer's own.  Concretely: pool `[A, B]` with computed weights
`[1, 2]`, draw `0` samples `A`, yet the returned ratio is `2 / 2 = 1`,
not `getPeerWeight(A) / weightsMax = 1 / 2`. -/
theorem C2_ratio_is_not_own_weight :
    (getWeighted optsNorm 1000 [samplePeerA, samplePeerB] 1 none [0]).1 =
      [(samplePeerA, 1)] ∧
    samplePeerA.isTrusted = false ∧
    getPeerWeight false 1000 samplePeerA = 1 ∧
    maxListQ ([samplePeerA, samplePeerB].map (getPeerWeight false 1000)) = 2 ∧
    getPeerWeight false 1000 samplePeerA /
      maxListQ ([samplePeerA, samplePeerB].map (getPeerWeight false 1000)) =
        mkRat 1 2 ∧
    (1 : ℚ) ≠ mkRat 1 2 := by
  with_unfolding_all decide

/-- C3 counterexample: a caller-supplied one-peer source array is emptied
by the call — `getWeighted(1, [A])` leaves the source holding `[]`, not
`[A]`. -/
theorem C3_source_array_mutated :
    (getWeighted optsNorm 1000 [] 1 (some [samplePeerA]) [0]).2 = [] ∧
    ([samplePeerA] : List PeerData) ≠ [] := by
  with_unfolding_all decide

/-- C3 amended: only the default pool is a copy; a supplied source array is
sampled destructively, and after the call it holds exactly the peers that
were not returned (returned peers plus leftover permute the original
source). -/
theorem C3_source_retains_unsampled (opts : PeerListOpts) (now : ℚ)
    (listPeers : List PeerData) (n : Nat) (src : List PeerData)
    (rands : List ℚ) (hr : ∀ r ∈ rands, 0 ≤ r ∧ r < 1)
    (hnd : src.Nodup) :
    ((getWeighted opts now listPeers n (some src) rands).1.map Prod.fst ++
      (getWeighted opts now listPeers n (some src) rands).2).Perm src := by
  obtain ⟨picked, leftover, heq, hperm, _⟩ :=
    getWeighted_spec opts now listPeers n (some src) rands hr hnd
  rw [heq]
  have hfst : (picked.map
      (fun c => (c.1, if c.1.isTrusted then (1 : ℚ) else c.2))).map Prod.fst =
      picked.map Prod.fst := by
    rw [List.map_map]
    rfl
  simp only [hfst]
  exact hperm

/-- C3 witness: the amended statement at a concrete call. -/
theorem C3_source_retains_unsampled_witness :
    ((getWeighted optsNorm 1000 [] 1 (some [samplePeerA]) [0]).1.map Prod.fst ++
      (getWeighted optsNorm 1000 [] 1 (some [samplePeerA]) [0]).2).Perm
      [samplePeerA] :=
  C3_source_retains_unsampled optsNorm 1000 [] 1 [samplePeerA] [0]
    (by decide) (by decide)

/-- C4 counterexample: `add` stores any supplied weight unclamped — adding
with weight `4000001` yields a peer whose weight exceeds
`MAX_WEIGHT = 4000000`. -/
theorem C4_add_stores_weight_above_max :
    ((add optsNorm dnsNone 0 [] "h" "7" "" "" false 4000001).1.map
      PeerData.weight) = [4000001] ∧
    ¬ ((4000001 : ℚ) ≤ MAX_WEIGHT) := by
  decide

/-- C8 counterexample: the code removes the *first occurrence* of
`::ffff:`, not only a leading prefix: `1::ffff:2` is a v6 literal under the
`ip` package's regex, is not private, carries no leading `::ffff:` (so the
claim's mapping leaves it unchanged), yet `cleanAddress` turns it into
`12`. -/
theorem C8_strips_inner_occurrence :
    isV6Format "1::ffff:2" = true ∧
    isPrivate "1::ffff:2" = false ∧
    specLeadingStrip "1::ffff:2" = "1::ffff:2" ∧
    cleanAddress "1::ffff:2" = "12" ∧
    ("12" : String) ≠ "1::ffff:2" := by
  decide

/-- C8 amended: non-literals pass through unchanged; private-range literals
(the private test itself tolerates a mapped-v4 `::ffff:` head) become
`localhost`; any other literal has the *first occurrence* of `::ffff:`
removed.  In particular the two cited examples hold. -/
theorem C8_cleanAddress_behavior :
    cleanAddress "::ffff:10.0.0.1" = "localhost" ∧
    cleanAddress "example.com" = "example.com" ∧
    (∀ s, isV4Format s = false → isV6Format s = false → cleanAddress s = s) ∧
    (∀ s, (isV4Format s = true ∨ isV6Format s = true) → isPrivate s = true →
      cleanAddress s = "localhost") ∧
    (∀ s, (isV4Format s = true ∨ isV6Format s = true) → isPrivate s = false →
      cleanAddress s = replaceFirst s "::ffff:") :=
  ⟨by decide, by decide, cleanAddress_of_not_literal,
   cleanAddress_of_private, cleanAddress_of_not_private⟩

/-- C8 witness: the universally quantified clauses instantiated. -/
theorem C8_cleanAddress_behavior_witness :
    (isV4Format "nelson.example" = false ∧ isV6Format "nelson.example" = false ∧
      cleanAddress "nelson.example" = "nelson.example") ∧
    (isV6Format "::ffff:127.0.0.1" = true ∧ isPrivate "::ffff:127.0.0.1" = true ∧
      cleanAddress "::ffff:127.0.0.1" = "localhost") ∧
    (isV6Format "::ffff:8.8.4.4" = true ∧ isPrivate "::ffff:8.8.4.4" = false ∧
      cleanAddress "::ffff:8.8.4.4" = replaceFirst "::ffff:8.8.4.4" "::ffff:") :=
  ⟨⟨by decide, by decide,
      C8_cleanAddress_behavior.2.2.1 "nelson.example" (by decide) (by decide)⟩,
   ⟨by decide, by decide,
      C8_cleanAddress_behavior.2.2.2.1 "::ffff:127.0.0.1" (Or.inr (by decide))
        (by decide)⟩,
   ⟨by decide, by decide,
      C8_cleanAddress_behavior.2.2.2.2 "::ffff:8.8.4.4" (Or.inr (by decide))
        (by decide)⟩⟩

/-- C9 counterexample: `cleanAddress` is not idempotent — stripping the
mapped-v4 head of the non-private v6 literal `::ffff:fe80:1` exposes
`fe80:1`, which a second application rewrites to `localhost`. -/
theorem C9_not_idempotent :
    cleanAddress "::ffff:fe80:1" = "fe80:1" ∧
    cleanAddress (cleanAddress "::ffff:fe80:1") = "localhost" ∧
    cleanAddress (cleanAddress "::ffff:fe80:1") ≠
      cleanAddress "::ffff:fe80:1" := by
  decide

/-- C9 amended: idempotence holds on every input that is not a v4/v6
literal, and on every private input; only a non-private literal whose
stripped form is again a literal in a private range can break it. -/
theorem C9_idempotent_on_nonliteral_or_private (s : String)
    (h : (isV4Format s = false ∧ isV6Format s = false) ∨ isPrivate s = true) :
    cleanAddress (cleanAddress s) = cleanAddress s := by
  rcases h with ⟨h4, h6⟩ | hp
  · rw [cleanAddress_of_not_literal s h4 h6, cleanAddress_of_not_literal s h4 h6]
  · by_cases h4 : isV4Format s = true
    · rw [cleanAddress_of_private s (Or.inl h4) hp]
      exact cleanAddress_of_not_literal "localhost" (by decide) (by decide)
    · by_cases h6 : isV6Format s = true
      · rw [cleanAddress_of_private s (Or.inr h6) hp]
        exact cleanAddress_of_not_literal "localhost" (by decide) (by decide)
      · rw [cleanAddress_of_not_literal s (by simpa using h4) (by simpa using h6),
            cleanAddress_of_not_literal s (by simpa using h4) (by simpa using h6)]

/-- C9 witness: idempotence at a non-literal and at a private literal. -/
theorem C9_idempotent_witness :
    cleanAddress (cleanAddress "example.com") = cleanAddress "example.com" ∧
    cleanAddress (cleanAddress "10.0.0.8") = cleanAddress "10.0.0.8" :=
  ⟨C9_idempotent_on_nonliteral_or_private "example.com" (Or.inl ⟨by decide, by decide⟩),
   C9_idempotent_on_nonliteral_or_private "10.0.0.8" (Or.inr (by decide))⟩

/-- C4 amended: the bound `weight ∈ [0, MAX_WEIGHT]` is preserved by `add`
whenever the *supplied* weight lies in `[0, MAX_WEIGHT]` (the code never
clamps it), and by `markConnected` unconditionally (its `Math.min` clamp). -/
theorem C4_weight_bound_preserved (opts : PeerListOpts)
    (dns : String → Option String) (now : ℚ) (peers : List PeerData)
    (hostname portS tcpS udpS : String) (tr : Bool) (w : ℚ)
    (hinv : ∀ p ∈ peers, 0 ≤ p.weight ∧ p.weight ≤ MAX_WEIGHT)
    (hw0 : 0 ≤ w) (hwM : w ≤ MAX_WEIGHT) :
    (∀ p ∈ (add opts dns now peers hostname portS tcpS udpS tr w).1,
      0 ≤ p.weight ∧ p.weight ≤ MAX_WEIGHT) ∧
    (∀ (target : PeerData) (incW : Bool),
      ∀ p ∈ markConnected now peers target incW,
        0 ≤ p.weight ∧ p.weight ≤ MAX_WEIGHT) := by
  constructor
  · intro p hp
    simp only [add] at hp
    rcases hhead : (findByAddress opts dns peers hostname
        (jsParseInt portS)).head? with _ | existing
    · rw [hhead] at hp
      simp only at hp
      rcases List.mem_append.mp hp with h | h
      · exact hinv p h
      · rcases List.mem_singleton.mp h with rfl
        exact ⟨hw0, hwM⟩
    · rw [hhead] at hp
      simp only at hp
      split at hp
      · rcases mem_update _ _ _ _ hp with h | ⟨q, hq, rfl⟩
        · exact hinv p h
        · exact hinv q hq
      · split at hp
        · rcases mem_update _ _ _ _ hp with h | ⟨q, hq, rfl⟩
          · exact hinv p h
          · exact ⟨hw0, hwM⟩
        · exact hinv p hp
  · intro target incW p hp
    rcases mem_update _ _ _ _ hp with h | ⟨q, hq, rfl⟩
    · exact hinv p h
    · have hq' := hinv q hq
      simp only [jsMin]
      have hmul : q.weight *
          (if incW then CONNECTION_WEIGHT_MULTIPLIER else 1) = q.weight := by
        rcases incW with _ | _ <;>
          simp [CONNECTION_WEIGHT_MULTIPLIER]
      rw [hmul]
      split
      · exact hq'
      · refine ⟨?_, le_refl _⟩
        unfold MAX_WEIGHT
        norm_num

/-- C4 witness: the amended bound at a concrete `add` and `markConnected`. -/
theorem C4_weight_bound_preserved_witness :
    (∀ p ∈ (add optsNorm dnsNone 0 [] "h" "7" "" "" false 0).1,
      0 ≤ p.weight ∧ p.weight ≤ MAX_WEIGHT) ∧
    (∀ (target : PeerData) (incW : Bool),
      ∀ p ∈ markConnected 0 [] target incW,
        0 ≤ p.weight ∧ p.weight ≤ MAX_WEIGHT) :=
  C4_weight_bound_preserved optsNorm dnsNone 0 [] "h" "7" "" "" false 0
    (by decide) (by decide) (by decide)

/-- C5 counterexample: `add` with the unparseable port `"abc"` does mutate
state — on an empty list it inserts one peer, whose stored port is `NaN`. -/
theorem C5_bad_port_mutates :
    (add optsNorm dnsNone 0 [] "h" "abc" "" "" false 0).1 ≠ [] ∧
    ((add optsNorm dnsNone 0 [] "h" "abc" "" "" false 0).1.map
      PeerData.port) = [none] := by
  decide

/-- C5 amended: an unparseable port is not rejected; when no existing peer
matches, `add` still appends the fresh peer record, whose stored `port` is
`NaN` (and whose weight and hostname come through as usual). -/
theorem C5_bad_port_still_inserts (opts : PeerListOpts)
    (dns : String → Option String) (now : ℚ) (peers : List PeerData)
    (hostname portS tcpS udpS : String) (tr : Bool) (w : ℚ)
    (hport : jsParseInt portS = none)
    (hfind : findByAddress opts dns peers hostname (jsParseInt portS) = []) :
    (add opts dns now peers hostname portS tcpS udpS tr w).1 =
      peers ++ [freshPeer now hostname portS tcpS udpS tr w] ∧
    (freshPeer now hostname portS tcpS udpS tr w).port = none ∧
    (freshPeer now hostname portS tcpS udpS tr w).hostname =
      cleanAddress hostname ∧
    (freshPeer now hostname portS tcpS udpS tr w).weight = w :=
  ⟨add_no_match opts dns now peers hostname portS tcpS udpS tr w hfind,
   hport, by simp only [freshPeer], by simp only [freshPeer]⟩

/-- C5 witness: the amended statement at the concrete bad input. -/
theorem C5_bad_port_still_inserts_witness :
    (add optsNorm dnsNone 0 [] "h" "abc" "" "" false 0).1 =
      [] ++ [freshPeer 0 "h" "abc" "" "" false 0] ∧
    (freshPeer 0 "h" "abc" "" "" false 0).port = none ∧
    (freshPeer 0 "h" "abc" "" "" false 0).hostname = cleanAddress "h" ∧
    (freshPeer 0 "h" "abc" "" "" false 0).weight = 0 :=
  C5_bad_port_still_inserts optsNorm dnsNone 0 [] "h" "abc" "" "" false 0
    (by decide) (by decide)

/-- Projecting away the trusted-ratio rewrite leaves the sampled peers. -/
theorem map_fst_trusted_rewrite (picked : List (PeerData × ℚ)) :
    (picked.map (fun c =>
      (c.1, if c.1.isTrusted then (1 : ℚ) else c.2))).map Prod.fst =
    picked.map Prod.fst := by
  rw [List.map_map]
  rfl

/-- C6: for `n ≥ 1`, any pool without duplicates and in-range random
draws, `getWeighted` returns at most `n` pairs; the sampled peers are
pairwise distinct and all drawn from the pool; every trusted peer among
them carries ratio 1. -/
theorem C6_getWeighted_sample_properties (opts : PeerListOpts) (now : ℚ)
    (listPeers : List PeerData) (n : Nat) (source : Option (List PeerData))
    (rands : List ℚ) (hn : 1 ≤ n) (hr : ∀ r ∈ rands, 0 ≤ r ∧ r < 1)
    (hnd : (source.getD listPeers).Nodup) :
    (getWeighted opts now listPeers n source rands).1.length ≤ n ∧
    ((getWeighted opts now listPeers n source rands).1.map Prod.fst).Nodup ∧
    (∀ pr ∈ (getWeighted opts now listPeers n source rands).1,
      pr.1 ∈ source.getD listPeers) ∧
    (∀ pr ∈ (getWeighted opts now listPeers n source rands).1,
      pr.1.isTrusted = true → pr.2 = 1) := by
  obtain ⟨picked, leftover, heq, hperm, hlen⟩ :=
    getWeighted_spec opts now listPeers n source rands hr hnd
  have hres : (getWeighted opts now listPeers n source rands).1 =
      picked.map (fun c => (c.1, if c.1.isTrusted then (1 : ℚ) else c.2)) := by
    rw [heq]
  have hndapp : ((picked.map Prod.fst) ++ leftover).Nodup :=
    hperm.nodup_iff.mpr hnd
  refine ⟨?_, ?_, ?_, ?_⟩
  · rw [hres, List.length_map, hlen, if_neg (by omega)]
    exact min_le_left n _
  · rw [hres, map_fst_trusted_rewrite]
    exact hndapp.of_append_left
  · intro pr hpr
    rw [hres] at hpr
    obtain ⟨c, hc, rfl⟩ := List.mem_map.mp hpr
    have hmem : c.1 ∈ picked.map Prod.fst := List.mem_map_of_mem Prod.fst hc
    exact hperm.subset (List.mem_append_left _ hmem)
  · intro pr hpr htr
    rw [hres] at hpr
    obtain ⟨c, hc, rfl⟩ := List.mem_map.mp hpr
    simp only at htr ⊢
    rw [if_pos htr]

/-- C6 witness: the sampling properties at a concrete call. -/
theorem C6_getWeighted_sample_properties_witness :
    (getWeighted optsNorm 1000 [samplePeerA, samplePeerT] 1 none [0]).1.length ≤ 1 ∧
    ((getWeighted optsNorm 1000 [samplePeerA, samplePeerT] 1 none [0]).1.map
      Prod.fst).Nodup ∧
    (∀ pr ∈ (getWeighted optsNorm 1000 [samplePeerA, samplePeerT] 1 none [0]).1,
      pr.1 ∈ (none : Option (List PeerData)).getD [samplePeerA, samplePeerT]) ∧
    (∀ pr ∈ (getWeighted optsNorm 1000 [samplePeerA, samplePeerT] 1 none [0]).1,
      pr.1.isTrusted = true → pr.2 = 1) :=
  C6_getWeighted_sample_properties optsNorm 1000 [samplePeerA, samplePeerT] 1
    none [0] (by decide) (by decide) (by decide)

theorem jsNumNe_self_of_isSome (o : Option Int) (h : o.isSome) :
    jsNumNe o o = false := by
  match o, h with
  | some v, _ => simp [jsNumNe]

theorem update_singleton (p : PeerData) (f : PeerData → PeerData) :
    update [p] p f = [f p] := by
  unfold update
  simp

/-- The shape of the peer that `add` inserts into an empty list. -/
theorem add_to_empty (opts : PeerListOpts) (dns : String → Option String)
    (now : ℚ) (hostname portS tcpS udpS : String) (tr : Bool) (w : ℚ) :
    (add opts dns now [] hostname portS tcpS udpS tr w).1 =
      [freshPeer now hostname portS tcpS udpS tr w] := by
  rw [add_no_match opts dns now [] hostname portS tcpS udpS tr w
    (findByAddress_nil opts dns hostname (jsParseInt portS))]
  rw [List.nil_append]

/-- `add` on a single existing peer that matches the supplied address and
ports, with a larger supplied weight: the stored weight is raised. -/
theorem add_single_raises_weight (opts : PeerListOpts)
    (hmp : opts.multiPort = false) (dns : String → Option String) (now : ℚ)
    (p : PeerData) (hostname portS tcpS udpS : String) (w2 : ℚ)
    (hh : p.hostname = cleanAddress hostname)
    (hport : p.port = jsParseInt portS) (hsome : (jsParseInt portS).isSome)
    (hT : p.TCPPort = jsNumOrDefault
      (jsParseInt (jsOrDefaultS tcpS (toString IRI_DEFAULT_TCP))) IRI_DEFAULT_TCP)
    (hU : p.UDPPort = jsNumOrDefault
      (jsParseInt (jsOrDefaultS udpS (toString IRI_DEFAULT_UDP))) IRI_DEFAULT_UDP)
    (hw : p.weight < w2) :
    (add opts dns now [p] hostname portS tcpS udpS false w2).1 =
      [{p with weight := w2}] := by
  have hfind := findByAddress_singleton opts hmp dns p hostname
    (jsParseInt portS) hh
  simp only [add, hfind, List.head?_cons]
  have hcond : (!opts.multiPort &&
      (jsNumNe (jsParseInt portS) p.port ||
       (jsTruthyNum (jsParseInt (jsOrDefaultS tcpS (toString IRI_DEFAULT_TCP))) &&
        jsNumNe (jsParseInt (jsOrDefaultS tcpS (toString IRI_DEFAULT_TCP)))
          p.TCPPort) ||
       (jsTruthyNum (jsParseInt (jsOrDefaultS udpS (toString IRI_DEFAULT_UDP))) &&
        jsNumNe (jsParseInt (jsOrDefaultS udpS (toString IRI_DEFAULT_UDP)))
          p.UDPPort))) = false := by
    rw [hport, hT, hU, jsNumNe_self_of_isSome _ hsome, tcp_cond_false,
      tcp_cond_false]
    simp
  rw [hcond]
  simp only [Bool.false_eq_true, if_false, if_pos hw, update_singleton]

/-- C7: with `multiPort=false`, adding the same hostname and ports twice
with weights `w1 < w2` leaves a single stored peer whose weight is `w2`,
and `findByAddress` then returns exactly that peer. -/
theorem C7_second_add_raises_weight (opts : PeerListOpts)
    (hmp : opts.multiPort = false) (dns : String → Option String)
    (now now2 : ℚ) (hostname portS tcpS udpS : String) (w1 w2 : ℚ)
    (hsome : (jsParseInt portS).isSome) (hw : w1 < w2) :
    ((add opts dns now2
        ((add opts dns now [] hostname portS tcpS udpS false w1).1)
        hostname portS tcpS udpS false w2).1.map PeerData.weight) = [w2] ∧
    ((findByAddress opts dns
        ((add opts dns now2
          ((add opts dns now [] hostname portS tcpS udpS false w1).1)
          hostname portS tcpS udpS false w2).1)
        hostname (jsParseInt portS)).map PeerData.weight) = [w2] := by
  rw [add_to_empty]
  rw [add_single_raises_weight opts hmp dns now2
    (freshPeer now hostname portS tcpS udpS false w1) hostname portS tcpS udpS
    w2 (by simp only [freshPeer]) (by simp only [freshPeer]) hsome
    (by simp only [freshPeer]) (by simp only [freshPeer])
    (by simpa only [freshPeer] using hw)]
  constructor
  · simp
  · rw [findByAddress_singleton opts hmp dns _ hostname (jsParseInt portS)
      (by simp only [freshPeer])]
    simp

/-- C7 witness: weights 3/10 then 7/10 on hostname `h`. -/
theorem C7_second_add_raises_weight_witness :
    ((add optsNorm dnsNone 5
        ((add optsNorm dnsNone 0 [] "h" "7" "8" "9" false (mkRat 3 10)).1)
        "h" "7" "8" "9" false (mkRat 7 10)).1.map PeerData.weight) =
      [mkRat 7 10] ∧
    ((findByAddress optsNorm dnsNone
        ((add optsNorm dnsNone 5
          ((add optsNorm dnsNone 0 [] "h" "7" "8" "9" false (mkRat 3 10)).1)
          "h" "7" "8" "9" false (mkRat 7 10)).1)
        "h" (jsParseInt "7")).map PeerData.weight) = [mkRat 7 10] :=
  C7_second_add_raises_weight optsNorm rfl dnsNone 0 5 "h" "7" "8" "9"
    (mkRat 3 10) (mkRat 7 10) (by decide) (by decide)

/-- C10: `getWeighted(0)` with the default source returns every in-memory
peer exactly once (the result is a permutation of the list). -/
theorem C10_amount_zero_returns_all (opts : PeerListOpts) (now : ℚ)
    (listPeers : List PeerData) (rands : List ℚ)
    (hr : ∀ r ∈ rands, 0 ≤ r ∧ r < 1) (hnd : listPeers.Nodup) :
    ((getWeighted opts now listPeers 0 none rands).1.map Prod.fst).Perm
      listPeers := by
  obtain ⟨picked, leftover, heq, hperm, hlen⟩ :=
    getWeighted_spec opts now listPeers 0 none rands hr hnd
  have hpool : (none : Option (List PeerData)).getD listPeers = listPeers := rfl
  rw [hpool] at hperm hlen
  rw [if_pos rfl, min_self] at hlen
  have hlper := hperm.length_eq
  have hleft : leftover = [] := by
    rw [List.length_append, List.length_map, hlen] at hlper
    refine List.length_eq_zero.mp ?_
    omega
  rw [heq, map_fst_trusted_rewrite]
  rw [hleft, List.append_nil] at hperm
  exact hperm

/-- C10 witness: a concrete two-peer list is returned in full. -/
theorem C10_amount_zero_returns_all_witness :
    ((getWeighted optsNorm 1000 [samplePeerA, samplePeerB] 0 none
        [0, 0]).1.map Prod.fst).Perm [samplePeerA, samplePeerB] :=
  C10_amount_zero_returns_all optsNorm 1000 [samplePeerA, samplePeerB] [0, 0]
    (by decide) (by decide)

end Nelson
